import Mathlib

/-! Redis-DistributedLock: a lease-based lock over a key-value store.

Shallow embedding of `src/Redis-DistributedLock/package-main.go`.

* `DistributedLock`, `NewLock`, `Acquire`, `AcquireWithRetry`, `Release`, `inventoryWorker`
  and `orderWorker` follow the Go source.
* The key-value store itself (the Redis server reached through the client library) is not
  part of the repository; `Store` and its three commands are modelled from section 6 of the
  specification.
* `Worker.step` and `Sys.step` give the two worker functions once more as atomic steps of
  several goroutines under a scheduler, for the statements about interleavings; a
  `time.Sleep` returns no earlier than asked, otherwise the scheduler is free.
* Console output (`fmt.Printf`) is not modelled.  Identifiers are the canonical text of a
  fresh UUID, so the `identifier[:8]` slices that only feed the progress messages are always
  in range.
-/

namespace RedisLock

/-! ## Basic types -/

/-- Go `time.Duration`: a signed number of nanoseconds. -/
abbrev Duration := Int

/-- One nanosecond-based unit of `time.Duration`: `time.Millisecond`. -/
def Millisecond : Duration := 1000000

/-- The unit `time.Second`. -/
def Second : Duration := 1000 * Millisecond

/-- A store-communication failure (the non-nil Go `error` of a client call). -/
structure StoreFault where
  msg : String
deriving DecidableEq, Repr

/-- Go return type `(bool, error)` of `Acquire` and `AcquireWithRetry`. -/
abbrev AcquireResult := Bool × Option StoreFault

/-! ## The external store -/

/-- A lease record: the stored value and the instant (on the store's clock) at which it
lapses. -/
structure Lease where
  value : String
  expiry : Int
deriving DecidableEq, Repr

/-- Modelled from the spec: the external key-value store of section 6 (the Redis server and
its client library are outside the repository).  It has a clock and at most one record per
key; a record is live while the clock is strictly before its expiry. -/
structure Store where
  now : Int
  data : String → Option Lease

namespace Store

/-- The store with no records, its clock reading `t0`. -/
def empty (t0 : Int) : Store := { now := t0, data := fun _ => none }

/-- The live record under `k`, if any: an expired record is observably absent. -/
def live (s : Store) (k : String) : Option Lease :=
  match s.data k with
  | some r => if s.now < r.expiry then some r else none
  | none => none

/-- Modelled from the spec: the command `GET k` used by the release script; the value of the
live record, or nil. -/
def GET (s : Store) (k : String) : Option String :=
  (s.live k).map Lease.value

/-- Modelled from the spec: the command `DEL k` used by the release script; removes the live
record under `k` and returns how many keys were removed. -/
def DEL (s : Store) (k : String) : Int × Store :=
  match s.live k with
  | some _ => (1, { s with data := fun k2 => if k2 = k then none else s.data k2 })
  | none => (0, s)

/-- Modelled from the spec: `ConditionalCreate(key, value, ttl)` of section 6, the command
behind the client call `SetNX`: creates `k = v` with expiry `ttl` from now iff `k` has no live
record, and returns whether the create happened. -/
def SetNX (s : Store) (k v : String) (ttl : Duration) : Bool × Store :=
  match s.live k with
  | some _ => (false, s)
  | none =>
    (true, { s with data := fun k2 => if k2 = k then some ⟨v, s.now + ttl⟩ else s.data k2 })

/-- Passage of `dt` nanoseconds on the store's clock (the only source of passive expiry). -/
def advance (s : Store) (dt : Nat) : Store := { s with now := s.now + dt }

end Store

/-! ## The lock (source lines 15-60) -/

/-- Go `type DistributedLock struct` without the client handle: there is one store. -/
structure DistributedLock where
  key : String
  identifier : String
  ttl : Duration
deriving DecidableEq, Repr

/-- Go `NewLock`; `uuid` stands for the text of `uuid.New().String()`. -/
def NewLock (resource : String) (uuid : String) (ttl : Duration) : DistributedLock :=
  { key := "lock:" ++ resource, identifier := uuid, ttl := ttl }

/-- Go `(*DistributedLock).Acquire`: one `SetNX key identifier ttl`.  `fault` is the
environment's choice whether the call fails in transit; a failed call returns the error and
does not reach the store. -/
def DistributedLock.Acquire (l : DistributedLock) (fault : Option StoreFault) (s : Store) :
    AcquireResult × Store :=
  match fault with
  | some e => ((false, some e), s)
  | none => (((s.SetNX l.key l.identifier l.ttl).1, none), (s.SetNX l.key l.identifier l.ttl).2)

/-- The Lua script of `Release`, run atomically by the store:
`if GET KEYS[1] == ARGV[1] then return DEL KEYS[1] else return 0 end`. -/
def releaseScript (key1 argv1 : String) (s : Store) : Int × Store :=
  if s.GET key1 = some argv1 then s.DEL key1 else (0, s)

/-- Go `(*DistributedLock).Release`: runs the script on `[key]`, `identifier`, drops its
result and returns the error.  A failed call does not reach the store. -/
def DistributedLock.Release (l : DistributedLock) (fault : Option StoreFault) (s : Store) :
    Option StoreFault × Store :=
  match fault with
  | some e => (some e, s)
  | none => (none, (releaseScript l.key l.identifier s).2)

/-! ## One goroutine running against a shared world -/

/-- The state shared by all goroutines: the store and the two package-level counters
`inventoryCount` and `orderCount` (source lines 63-66). -/
structure World where
  store : Store
  inventoryCount : Int
  orderCount : Int

/-- What the rest of the system does between two steps of the goroutine under study:
`interfere` is the combined effect of the other goroutines and of the store's clock on the
shared world, `fault` says whether the goroutine's next store call fails in transit. -/
structure EnvAct where
  interfere : World → World
  fault : Option StoreFault

/-- The observable effects of the goroutine under study, in program order. -/
inductive Event where
  | acquire (key identifier : String) (ttl : Duration)
  | sleep (d : Duration)
  | release (key identifier : String)
  | readInventory (v : Int)
  | writeInventory (v : Int)
  | readOrders (v : Int)
  | writeOrders (v : Int)
deriving DecidableEq, Repr

/-- A run in progress: the shared world, the environment's remaining script (one entry is
consumed before each step of the goroutine; an exhausted script means no interference and no
fault), and the goroutine's own effects so far, oldest first. -/
structure Exec where
  world : World
  env : List EnvAct
  trace : List Event

/-- Go `int` arithmetic on a 64-bit platform: results wrap around. -/
def wrapInt (v : Int) : Int := (v + 2 ^ 63) % 2 ^ 64 - 2 ^ 63

namespace Exec

/-- Let the environment act before the goroutine's next step. -/
def next (x : Exec) : Option StoreFault × Exec :=
  match x.env with
  | [] => (none, x)
  | a :: rest => (a.fault, { x with world := a.interfere x.world, env := rest })

/-- The call `l.Acquire()` made by the goroutine. -/
def acquire (x : Exec) (l : DistributedLock) : AcquireResult × Exec :=
  ((l.Acquire x.next.1 x.next.2.world.store).1,
   { x.next.2 with
     world := { x.next.2.world with store := (l.Acquire x.next.1 x.next.2.world.store).2 }
     trace := x.next.2.trace ++ [Event.acquire l.key l.identifier l.ttl] })

/-- The call `l.Release()` made by the goroutine. -/
def release (x : Exec) (l : DistributedLock) : Option StoreFault × Exec :=
  ((l.Release x.next.1 x.next.2.world.store).1,
   { x.next.2 with
     world := { x.next.2.world with store := (l.Release x.next.1 x.next.2.world.store).2 }
     trace := x.next.2.trace ++ [Event.release l.key l.identifier] })

/-- The call `time.Sleep(d)`: the goroutine is suspended; whatever happens meanwhile,
including the passage of time, is the environment's. -/
def Sleep (x : Exec) (d : Duration) : Exec :=
  { x.next.2 with trace := x.next.2.trace ++ [Event.sleep d] }

/-- The read `current := inventoryCount`. -/
def readInventory (x : Exec) : Int × Exec :=
  (x.next.2.world.inventoryCount,
   { x.next.2 with trace := x.next.2.trace ++ [Event.readInventory x.next.2.world.inventoryCount] })

/-- The write `inventoryCount = v`. -/
def writeInventory (x : Exec) (v : Int) : Exec :=
  { x.next.2 with
    world := { x.next.2.world with inventoryCount := v }
    trace := x.next.2.trace ++ [Event.writeInventory v] }

/-- The read `current := orderCount`. -/
def readOrders (x : Exec) : Int × Exec :=
  (x.next.2.world.orderCount,
   { x.next.2 with trace := x.next.2.trace ++ [Event.readOrders x.next.2.world.orderCount] })

/-- The write `orderCount = v`. -/
def writeOrders (x : Exec) (v : Int) : Exec :=
  { x.next.2 with
    world := { x.next.2.world with orderCount := v }
    trace := x.next.2.trace ++ [Event.writeOrders v] }

end Exec

/-- The loop of `AcquireWithRetry` with `n` iterations left.  One iteration calls `Acquire`,
returns `(false, err)` on an error, `(true, nil)` on success, and otherwise sleeps `delay`
and goes round again; when no iteration is left the result is `(false, nil)`. -/
def retryLoop (l : DistributedLock) (delay : Duration) : Nat → Exec → AcquireResult × Exec
  | 0, x => ((false, none), x)
  | n + 1, x =>
    match (x.acquire l).1.2 with
    | some e => ((false, some e), (x.acquire l).2)
    | none =>
      if (x.acquire l).1.1 then ((true, none), (x.acquire l).2)
      else retryLoop l delay n ((x.acquire l).2.Sleep delay)

/-- Go `(*DistributedLock).AcquireWithRetry`: `for i := 0; i < retries; i++` runs its body
for `i = 0, ..., retries - 1`, that is `retries.toNat` times (not at all when
`retries ≤ 0`); `i` itself only appears in the progress message. -/
def DistributedLock.AcquireWithRetry (l : DistributedLock) (retries : Int) (delay : Duration)
    (x : Exec) : AcquireResult × Exec :=
  retryLoop l delay retries.toNat x

/-- Go `inventoryWorker` from the start gate on: builds its lock, tries to acquire it with
15 attempts 500 ms apart, gives up on an error or when not acquired, and otherwise reads the
counter, sleeps 2 s, writes the value read plus 10 and releases (the error of `Release` is
dropped). -/
def inventoryWorker (uuid : String) (x : Exec) : Exec :=
  let lock := NewLock "inventory" uuid (10 * Second)
  let r := lock.AcquireWithRetry 15 (500 * Millisecond) x
  match r.1.2 with
  | some _ => r.2
  | none =>
    if r.1.1 then
      let c := r.2.readInventory
      let x3 := (c.2.Sleep (2 * Second)).writeInventory (wrapInt (c.1 + 10))
      (x3.release lock).2
    else r.2

/-- Go `orderWorker`: as `inventoryWorker`, on resource `orders`, adding 1 to
`orderCount`. -/
def orderWorker (uuid : String) (x : Exec) : Exec :=
  let lock := NewLock "orders" uuid (10 * Second)
  let r := lock.AcquireWithRetry 15 (500 * Millisecond) x
  match r.1.2 with
  | some _ => r.2
  | none =>
    if r.1.1 then
      let c := r.2.readOrders
      let x3 := (c.2.Sleep (2 * Second)).writeOrders (wrapInt (c.1 + 1))
      (x3.release lock).2
    else r.2

/-! ## Vocabulary for the statements about the retry loop -/

/-- The run as it stands when attempt number `i` (counting from 0) is about to be made,
every earlier attempt having been followed by the sleep. -/
def attemptState (l : DistributedLock) (delay : Duration) (x : Exec) : Nat → Exec
  | 0 => x
  | i + 1 => ((attemptState l delay x i).acquire l).2.Sleep delay

/-- Attempt number `i`: the result of its `Acquire` and the run right after that call. -/
def attempt (l : DistributedLock) (delay : Duration) (x : Exec) (i : Nat) :
    AcquireResult × Exec :=
  (attemptState l delay x i).acquire l

/-- The effects of `k` busy rounds: `k` times an `Acquire` call followed by a sleep. -/
def busyRounds (l : DistributedLock) (delay : Duration) : Nat → List Event
  | 0 => []
  | k + 1 => busyRounds l delay k ++ [Event.acquire l.key l.identifier l.ttl, Event.sleep delay]

/-- Number of `Acquire` calls in a list of effects. -/
def acquireCalls : List Event → Nat
  | [] => 0
  | Event.acquire _ _ _ :: es => acquireCalls es + 1
  | _ :: es => acquireCalls es

/-- Total of the durations handed to `time.Sleep` in a list of effects. -/
def sleepTotal : List Event → Int
  | [] => 0
  | Event.sleep d :: es => d + sleepTotal es
  | _ :: es => sleepTotal es

/-- An effect that the retry loop may produce: an `Acquire` call or a sleep. -/
def Event.isRetryEffect : Event → Bool
  | Event.acquire _ _ _ => true
  | Event.sleep _ => true
  | _ => false

/-! ## Sequences of store operations -/

/-- One transition of the store: an `Acquire` or a `Release` by some lock, or the passage
of time. -/
inductive Op where
  | acquire (l : DistributedLock) (fault : Option StoreFault)
  | release (l : DistributedLock) (fault : Option StoreFault)
  | elapse (dt : Nat)

/-- The store after one transition. -/
def Op.apply (op : Op) (s : Store) : Store :=
  match op with
  | Op.acquire l f => (l.Acquire f s).2
  | Op.release l f => (l.Release f s).2
  | Op.elapse dt => s.advance dt

/-- Whether `op`, run in `s`, is an `Acquire` on key `k` that returns true. -/
def Op.wins (op : Op) (k : String) (s : Store) : Bool :=
  match op with
  | Op.acquire l f => decide (l.key = k) && (l.Acquire f s).1.1
  | _ => false

/-- The store after a sequence of transitions, oldest first. -/
def runOps : List Op → Store → Store
  | [], s => s
  | op :: ops, s => runOps ops (op.apply s)

/-- How many `Acquire` calls on key `k` return true in the course of `ops` from `s`. -/
def acquisitions (k : String) : List Op → Store → Nat
  | [], _ => 0
  | op :: ops, s => (if op.wins k s then 1 else 0) + acquisitions k ops (op.apply s)

/-- A store together with a history variable: for each key, the identifier of the lock whose
`Acquire` most recently returned true on it. -/
structure Tracked where
  store : Store
  winner : String → Option String

/-- One transition, recording a successful `Acquire` in the history variable. -/
def Tracked.step (t : Tracked) (op : Op) : Tracked :=
  { store := op.apply t.store
    winner := match op with
      | Op.acquire l f =>
        if (l.Acquire f t.store).1.1 then
          fun k => if k = l.key then some l.identifier else t.winner k
        else t.winner
      | _ => t.winner }

/-- A sequence of transitions, oldest first. -/
def Tracked.run : List Op → Tracked → Tracked
  | [], t => t
  | op :: ops, t => Tracked.run ops (t.step op)

/-- The initially empty store, nothing acquired yet. -/
def Tracked.init (t0 : Int) : Tracked := { store := Store.empty t0, winner := fun _ => none }

/-! ## The workers of `main` running concurrently -/

/-- Which of the two worker functions a goroutine runs. -/
inductive Job where
  | inventory
  | orders
deriving DecidableEq, Repr

/-- The resource name the worker passes to `NewLock` (lines 74 and 109). -/
def Job.resource : Job → String
  | Job.inventory => "inventory"
  | Job.orders => "orders"

/-- What the worker adds to the value it read (lines 95 and 130). -/
def Job.increment : Job → Int
  | Job.inventory => 10
  | Job.orders => 1

/-- Where a worker stands in its code, with the locals it carries.  `wake` is the instant
before which a `time.Sleep` cannot have returned; `since` records the store's clock at the
successful `Acquire`. -/
inductive Phase where
  | attempting (left : Nat)
  | backoff (left : Nat) (wake : Int)
  | acquired (since : Int)
  | critical (current : Int) (wake : Int) (since : Int)
  | written
  | finished (acquired : Bool)
deriving DecidableEq, Repr

/-- One worker goroutine: its function, the identifier of its lock and its position. -/
structure Worker where
  job : Job
  uuid : String
  phase : Phase
deriving DecidableEq, Repr

/-- The lock the worker builds: `NewLock(rdb, resource, 10*time.Second)`. -/
def Worker.lock (w : Worker) : DistributedLock := NewLock w.job.resource w.uuid (10 * Second)

/-- A worker just past the start gate, about to call `AcquireWithRetry(15, 500ms)`. -/
def Worker.start (job : Job) (uuid : String) : Worker :=
  { job := job, uuid := uuid, phase := Phase.attempting 15 }

/-- The counter a job works on. -/
def World.counter (wd : World) : Job → Int
  | Job.inventory => wd.inventoryCount
  | Job.orders => wd.orderCount

/-- Assignment to the counter of a job. -/
def World.setCounter (wd : World) (j : Job) (v : Int) : World :=
  match j with
  | Job.inventory => { wd with inventoryCount := v }
  | Job.orders => { wd with orderCount := v }

/-- One atomic step of a worker on the shared world (lines 35-48 and 78-99 / 113-134):

* `attempting 0`: the loop is over, `AcquireWithRetry` returns `(false, nil)` and the worker
  returns;
* `attempting (n + 1)`: one `Acquire`; an error makes the worker return, success takes it
  past `AcquireWithRetry`, a busy result sends it into `time.Sleep(500ms)`;
* `backoff`: once the sleep can have returned, back to the loop head;
* `acquired`: `current := counter`, then into `time.Sleep(2s)`;
* `critical`: once the sleep can have returned, `counter = current + increment`;
* `written`: `Release` (its error is dropped) and return.

A step of a sleeping worker before its wake instant, or of a finished worker, changes
nothing. -/
def Worker.step (w : Worker) (fault : Option StoreFault) (wd : World) : Worker × World :=
  match w.phase with
  | Phase.attempting 0 => ({ w with phase := Phase.finished false }, wd)
  | Phase.attempting (n + 1) =>
    match (w.lock.Acquire fault wd.store).1.2 with
    | some _ =>
      ({ w with phase := Phase.finished false },
       { wd with store := (w.lock.Acquire fault wd.store).2 })
    | none =>
      if (w.lock.Acquire fault wd.store).1.1 then
        ({ w with phase := Phase.acquired wd.store.now },
         { wd with store := (w.lock.Acquire fault wd.store).2 })
      else
        ({ w with phase := Phase.backoff n (wd.store.now + 500 * Millisecond) },
         { wd with store := (w.lock.Acquire fault wd.store).2 })
  | Phase.backoff n wake =>
    if wake ≤ wd.store.now then ({ w with phase := Phase.attempting n }, wd) else (w, wd)
  | Phase.acquired since =>
    ({ w with phase := Phase.critical (wd.counter w.job) (wd.store.now + 2 * Second) since }, wd)
  | Phase.critical current wake _ =>
    if wake ≤ wd.store.now then
      ({ w with phase := Phase.written },
       wd.setCounter w.job (wrapInt (current + w.job.increment)))
    else (w, wd)
  | Phase.written =>
    ({ w with phase := Phase.finished true },
     { wd with store := (w.lock.Release fault wd.store).2 })
  | Phase.finished _ => (w, wd)

/-- The whole system: the shared world and the worker goroutines. -/
structure Sys where
  world : World
  workers : List Worker

/-- What the scheduler may do next: let worker `i` take its next step (its store call, if
it makes one, failing in transit when `fault` is set), or let time pass. -/
inductive Action where
  | run (i : Nat) (fault : Option StoreFault)
  | elapse (dt : Nat)

/-- One scheduler action. -/
def Sys.step (s : Sys) (a : Action) : Sys :=
  match a with
  | Action.run i f =>
    match s.workers[i]? with
    | some w => { world := (w.step f s.world).2, workers := s.workers.set i (w.step f s.world).1 }
    | none => s
  | Action.elapse dt => { s with world := { s.world with store := s.world.store.advance dt } }

/-- An interleaving: a sequence of scheduler actions, oldest first. -/
def Sys.run : List Action → Sys → Sys
  | [], s => s
  | a :: acts, s => Sys.run acts (s.step a)

/-- The system as `main` starts it (lines 150-176): both lock keys deleted from the store
`s0` it finds, both counters reset to 0, three inventory workers and two order workers
waiting at the start gate, each with its own identifier. -/
def mainStart (s0 : Store) (u1 u2 u3 u4 u5 : String) : Sys :=
  { world :=
      { store := ((s0.DEL "lock:inventory").2.DEL "lock:orders").2
        inventoryCount := 0
        orderCount := 0 }
    workers :=
      [Worker.start Job.inventory u1, Worker.start Job.inventory u2,
       Worker.start Job.inventory u3, Worker.start Job.orders u4, Worker.start Job.orders u5] }

/-- The worker is inside its critical section: it has read the counter and not yet written
it. -/
def Worker.inCritical (w : Worker) : Bool :=
  match w.phase with
  | Phase.critical _ _ _ => true
  | _ => false

/-- For a worker that has acquired and not yet written: the instant of its acquisition. -/
def Worker.holdsSince (w : Worker) : Option Int :=
  match w.phase with
  | Phase.acquired since => some since
  | Phase.critical _ _ since => some since
  | _ => none

/-- The worker has acquired, has not yet written, and the lease it created is still running
at instant `now`. -/
def Worker.leaseRunning (w : Worker) (now : Int) : Bool :=
  match w.holdsSince with
  | some since => decide (now < since + w.lock.ttl)
  | none => false

/-- Mutual exclusion as claimed: no two distinct workers on the same resource are inside
their critical sections at the same time. -/
def MutualExclusion (s : Sys) : Prop :=
  ∀ (i j : Nat) (wi wj : Worker), s.workers[i]? = some wi → s.workers[j]? = some wj →
    i ≠ j → wi.job = wj.job → ¬ (wi.inCritical = true ∧ wj.inCritical = true)

/-- The action is not a counter write made after the writer's lease has lapsed. -/
def Action.timely (a : Action) (s : Sys) : Bool :=
  match a with
  | Action.run i _ =>
    match s.workers[i]? with
    | some w =>
      match w.phase with
      | Phase.critical _ wake _ =>
        !(decide (wake ≤ s.world.store.now)) || w.leaseRunning s.world.store.now
      | _ => true
    | none => true
  | Action.elapse _ => true

/-- Along the interleaving every counter write is made while the writer's lease is still
running: each hold is shorter than the lease. -/
def Sys.timelyRun : List Action → Sys → Bool
  | [], _ => true
  | a :: acts, s => a.timely s && Sys.timelyRun acts (s.step a)

/-- What a worker has contributed to the counter of `job`: its increment once it has
written, nothing before and nothing if it works on the other counter or gave up. -/
def Worker.credit (job : Job) (w : Worker) : Int :=
  if w.job = job then
    match w.phase with
    | Phase.written => job.increment
    | Phase.finished true => job.increment
    | _ => 0
  else 0

/-- Every worker has returned after running its critical section. -/
def Sys.allCompleted (s : Sys) : Prop := ∀ w ∈ s.workers, w.phase = Phase.finished true

/-- Every worker has returned, with or without the lock. -/
def Sys.allFinished (s : Sys) : Prop := ∀ w ∈ s.workers, ∃ b, w.phase = Phase.finished b

/-- What holds of the leases at every point of every interleaving: identifiers are pairwise
distinct, and a worker that has acquired and not yet written either still finds its own
record under its key or has outlived its lease. -/
def Sys.LeaseInv (s : Sys) : Prop :=
  (s.workers.map Worker.uuid).Nodup ∧
  ∀ (i : Nat) (w : Worker) (since : Int), s.workers[i]? = some w → w.holdsSince = some since →
    s.world.store.data w.lock.key = some ⟨w.uuid, since + w.lock.ttl⟩ ∨
    since + w.lock.ttl ≤ s.world.store.now

/-- What holds of the counters along an interleaving whose writes are timely: the counter
arithmetic cannot overflow, a worker inside its critical section whose lease is still
running has read the current value, and each counter is the sum of what the workers have
contributed. -/
def Sys.CountInv (s : Sys) : Prop :=
  10 * (s.workers.length : Int) < 2 ^ 63 ∧
  (∀ (i : Nat) (w : Worker) (c wake since : Int), s.workers[i]? = some w →
    w.phase = Phase.critical c wake since → s.world.store.now < since + w.lock.ttl →
    c = s.world.counter w.job) ∧
  ∀ job : Job, s.world.counter job = (s.workers.map (Worker.credit job)).sum

/-! ## Concrete scenarios -/

/-- Five identifiers of the shape `uuid.New().String()` produces. -/
def uuid1 : String := "3f2a9c1e-7b64-4d1a-9e0f-5c8d2b7a1e01"

/-- A second identifier. -/
def uuid2 : String := "a81d4f6b-0c35-4e92-8b7a-1d6e3f9c2b02"

/-- A third identifier. -/
def uuid3 : String := "5be07d2c-9a1f-4c63-b2d8-7e4f0a6c3d03"

/-- A fourth identifier. -/
def uuid4 : String := "c4e1b8a7-2d59-4f06-a3c1-9b8e7d5f4a04"

/-- A fifth identifier. -/
def uuid5 : String := "e9706a3d-6f18-4b2c-8d4e-0a1b2c3d4e05"

/-- A store at instant 0 in which `lock:inventory` is held by token `uuid1` until instant 10. -/
def heldStore : Store :=
  { now := 0, data := fun k => if k = "lock:inventory" then some ⟨uuid1, 10⟩ else none }

/-- A run starting in `heldStore`, counters at 0, with a quiet environment: the lease stays
held by `uuid1` throughout. -/
def heldExec : Exec :=
  { world := { store := heldStore, inventoryCount := 0, orderCount := 0 }, env := [], trace := [] }

/-- An environment step without interference or fault. -/
def EnvAct.quiet : EnvAct := { interfere := fun w => w, fault := none }

/-- An environment step in which the holder's lease goes away (released or expired). -/
def EnvAct.freed : EnvAct :=
  { interfere := fun w => { w with store := Store.empty 5 }, fault := none }

/-- A run starting in `heldStore` in which the lease is gone by the second attempt. -/
def freedExec : Exec :=
  { world := { store := heldStore, inventoryCount := 0, orderCount := 0 }
    env := [EnvAct.quiet, EnvAct.quiet, EnvAct.freed]
    trace := [] }

/-- A history on `lock:inventory`: the first lock acquires, the second is refused, the first releases, the second
acquires, 3 ns pass. -/
def sampleOps : List Op :=
  [Op.acquire (NewLock "inventory" uuid1 10) none, Op.acquire (NewLock "inventory" uuid2 10) none,
   Op.release (NewLock "inventory" uuid1 10) none, Op.acquire (NewLock "inventory" uuid2 10) none,
   Op.elapse 3]

/-- After the first lock acquired: the second is refused, then 10 ns pass. -/
def waitingOps : List Op :=
  [Op.acquire (NewLock "inventory" uuid2 10) none, Op.elapse 10]

/-- An interleaving in which the lease of worker 0 lapses during its hold: worker 0 acquires
and reads, 10 s pass before it is scheduled again, worker 1 acquires and reads. -/
def lapseActs : List Action :=
  [Action.run 0 none, Action.run 0 none, Action.elapse 10000000000,
   Action.run 1 none, Action.run 1 none]

/-- The four steps of an undisturbed worker: acquire, read, (2 s later) write, release. -/
def soloActs (i : Nat) : List Action :=
  [Action.run i none, Action.run i none, Action.elapse 2000000000, Action.run i none,
   Action.run i none]

/-- The five workers one after the other, nothing going wrong. -/
def quietActs : List Action :=
  soloActs 0 ++ soloActs 1 ++ soloActs 2 ++ soloActs 3 ++ soloActs 4

/-- As `quietActs`, but the first `Acquire` of worker 0 fails in transit. -/
def faultActs : List Action :=
  [Action.run 0 (some ⟨"connection reset"⟩)] ++ soloActs 1 ++ soloActs 2 ++ soloActs 3 ++
    soloActs 4

/-- No fault, every worker acquires: `lapseActs`, then workers 0 and 1 both write and
release, then the other three run undisturbed. -/
def lostUpdateActs : List Action :=
  lapseActs ++
    [Action.run 0 none, Action.run 0 none, Action.elapse 2000000000, Action.run 1 none,
     Action.run 1 none] ++ soloActs 2 ++ soloActs 3 ++ soloActs 4

/-! ## Facts about the store commands -/

theorem Store.GET_eq_none_iff (s : Store) (k : String) : s.GET k = none ↔ s.live k = none := by
  simp [Store.GET]

theorem Store.live_DEL_self (s : Store) (k : String) : (s.DEL k).2.live k = none := by
  unfold Store.DEL
  cases h : s.live k with
  | none => simpa using h
  | some r => simp [Store.live]

theorem Store.GET_DEL_self (s : Store) (k : String) : (s.DEL k).2.GET k = none := by
  rw [Store.GET_eq_none_iff]
  exact Store.live_DEL_self s k

theorem releaseScript_of_ne (s : Store) (k v : String) (h : s.GET k ≠ some v) :
    releaseScript k v s = (0, s) := by
  simp [releaseScript, h]

theorem releaseScript_GET_self (s : Store) (k v : String) :
    (releaseScript k v s).2.GET k ≠ some v := by
  unfold releaseScript
  split
  · rw [Store.GET_DEL_self]
    simp
  · assumption

/-! ## Claims about `Acquire` and `Release` on the store -/

/-- C1 (ownership-scoped release): whenever the key `"lock:" ++ resource` holds token `t1`,
a `Release` by a lock on the same resource whose identifier `t2` differs from `t1` returns no
error and leaves the store exactly as it was, so the lease is still there and still owned by
`t1`. -/
theorem release_with_other_token_is_noop (s : Store) (resource t1 t2 : String) (ttl : Duration)
    (hheld : s.GET ("lock:" ++ resource) = some t1) (hne : t2 ≠ t1) :
    (NewLock resource t2 ttl).Release none s = (none, s) ∧
    ((NewLock resource t2 ttl).Release none s).2.GET ("lock:" ++ resource) = some t1 := by
  have hk : s.GET ("lock:" ++ resource) ≠ some t2 := by
    rw [hheld]
    intro h
    exact hne (Option.some.inj h).symm
  have h : (NewLock resource t2 ttl).Release none s = (none, s) := by
    simp [DistributedLock.Release, NewLock, releaseScript_of_ne s _ _ hk]
  exact ⟨h, by rw [h]; exact hheld⟩

/-- C2 (acquire semantics): when the store call does not fault, `Acquire` reports no error and
returns true exactly when the key has no live record; on true the store then holds, under the
key, this lock's identifier with expiry `ttl` after the current instant (all other keys and
the clock untouched); on false the store is unchanged and a holder's token is still the
value. -/
theorem acquire_semantics (s : Store) (l : DistributedLock) :
    (l.Acquire none s).1.2 = none ∧
    ((l.Acquire none s).1.1 = true ↔ s.GET l.key = none) ∧
    ((l.Acquire none s).1.1 = true →
      (l.Acquire none s).2.data l.key = some ⟨l.identifier, s.now + l.ttl⟩ ∧
      (l.Acquire none s).2.now = s.now ∧
      ∀ k, k ≠ l.key → (l.Acquire none s).2.data k = s.data k) ∧
    ((l.Acquire none s).1.1 = false →
      (l.Acquire none s).2 = s ∧
      ∃ t, s.GET l.key = some t ∧ (l.Acquire none s).2.GET l.key = some t) := by
  cases h : s.live l.key with
  | none =>
    simp [DistributedLock.Acquire, Store.SetNX, Store.GET, h]
    intro k hk
    simp [hk]
  | some r =>
    simp [DistributedLock.Acquire, Store.SetNX, Store.GET, h]

/-- C5 (idempotent release): when the key is absent or holds another token, `Release`
returns no error and leaves the store exactly as it was; and in every store a second
`Release` right after a first gives the same result and the same store as the first
alone. -/
theorem release_idempotent (s : Store) (l : DistributedLock) :
    ((s.GET l.key = none ∨ ∃ t, s.GET l.key = some t ∧ t ≠ l.identifier) →
      l.Release none s = (none, s)) ∧
    l.Release none (l.Release none s).2 = l.Release none s := by
  constructor
  · intro h
    have hk : s.GET l.key ≠ some l.identifier := by
      rcases h with h | ⟨t, ht, hne⟩
      · simp [h]
      · rw [ht]
        intro h2
        exact hne (Option.some.inj h2)
    simp [DistributedLock.Release, releaseScript_of_ne s _ _ hk]
  · have h2 := releaseScript_GET_self s l.key l.identifier
    simp [DistributedLock.Release, releaseScript_of_ne _ _ _ h2]

/-! ## The retry loop -/

theorem Exec.next_trace (x : Exec) : x.next.2.trace = x.trace := by
  unfold Exec.next
  cases x.env <;> rfl

theorem Exec.acquire_trace (x : Exec) (l : DistributedLock) :
    (x.acquire l).2.trace = x.trace ++ [Event.acquire l.key l.identifier l.ttl] := by
  simp [Exec.acquire, Exec.next_trace]

theorem Exec.Sleep_trace (x : Exec) (d : Duration) :
    (x.Sleep d).trace = x.trace ++ [Event.sleep d] := by
  simp [Exec.Sleep, Exec.next_trace]

theorem attemptState_trace (l : DistributedLock) (delay : Duration) (x : Exec) (k : Nat) :
    (attemptState l delay x k).trace = x.trace ++ busyRounds l delay k := by
  induction k with
  | zero => simp [attemptState, busyRounds]
  | succ k ih =>
    simp [attemptState, busyRounds, Exec.Sleep_trace, Exec.acquire_trace, ih]

theorem attempt_trace (l : DistributedLock) (delay : Duration) (x : Exec) (k : Nat) :
    (attempt l delay x k).2.trace =
      x.trace ++ busyRounds l delay k ++ [Event.acquire l.key l.identifier l.ttl] := by
  simp [attempt, Exec.acquire_trace, attemptState_trace]

/-- After `k` busy attempts the loop is where it would be had it started, with `k` fewer
iterations left, from the state reached by those `k` rounds. -/
theorem retryLoop_skip_busy (l : DistributedLock) (delay : Duration) (x : Exec) (k : Nat) :
    ∀ m : Nat, (∀ i, i < k → (attempt l delay x i).1 = (false, none)) →
      retryLoop l delay (k + m) x = retryLoop l delay m (attemptState l delay x k) := by
  induction k with
  | zero => intro m _; simp [attemptState]
  | succ k ih =>
    intro m hbusy
    have h1 := ih (m + 1) (fun i hi => hbusy i (Nat.lt_succ_of_lt hi))
    have hk := hbusy k (Nat.lt_succ_self k)
    have e : k + 1 + m = k + (m + 1) := by omega
    rw [e, h1]
    simp only [attempt] at hk
    simp [retryLoop, attemptState, hk]

theorem acquireCalls_busyRounds (l : DistributedLock) (delay : Duration) (k : Nat) :
    acquireCalls (busyRounds l delay k) = k := by
  have key : ∀ es : List Event,
      acquireCalls (es ++ [Event.acquire l.key l.identifier l.ttl, Event.sleep delay]) =
        acquireCalls es + 1 := by
    intro es
    induction es with
    | nil => simp [acquireCalls]
    | cons e es ih => cases e <;> simp [acquireCalls, ih]
  induction k with
  | zero => simp [busyRounds, acquireCalls]
  | succ k ih => simp [busyRounds, key, ih]

theorem sleepTotal_busyRounds (l : DistributedLock) (delay : Duration) (k : Nat) :
    sleepTotal (busyRounds l delay k) = k * delay := by
  have key : ∀ es : List Event,
      sleepTotal (es ++ [Event.acquire l.key l.identifier l.ttl, Event.sleep delay]) =
        sleepTotal es + delay := by
    intro es
    induction es with
    | nil => simp [sleepTotal]
    | cons e es ih =>
      cases e <;> simp [sleepTotal, ih]
      ring
  induction k with
  | zero => simp [busyRounds, sleepTotal]
  | succ k ih =>
    simp only [busyRounds, key, ih]
    push_cast
    ring

/-- An `Acquire` that meets a live record and no fault is busy. -/
theorem Acquire_busy_of_held (l : DistributedLock) (s : Store) (t : String)
    (h : s.GET l.key = some t) : (l.Acquire none s).1 = (false, none) := by
  cases hl : s.live l.key with
  | none => simp [Store.GET, hl] at h
  | some r => simp [DistributedLock.Acquire, Store.SetNX, hl]

/-- C3 (outcome of `AcquireWithRetry`): for every attempt budget `n`, delay and run, the
result is fixed by the first non-busy `Acquire` among the first `n` attempts.  If all of them
are busy the result is `(false, nil)` after exactly `n` rounds of `Acquire` and sleep.  If
attempt `k` is the first non-busy one, the result is `(true, nil)` when it succeeded and
`(false, err)` with its own error when it failed, and the run ends right after that call:
the effects are `k` busy rounds and one more `Acquire`, with no call or sleep after it. -/
theorem acquireWithRetry_outcome (l : DistributedLock) (n : Int) (delay : Duration) (x : Exec) :
    ((∀ i : Nat, (i : Int) < n → (attempt l delay x i).1 = (false, none)) →
      l.AcquireWithRetry n delay x = ((false, none), attemptState l delay x n.toNat) ∧
      (l.AcquireWithRetry n delay x).2.trace = x.trace ++ busyRounds l delay n.toNat) ∧
    (∀ k : Nat, (k : Int) < n →
      (∀ i, i < k → (attempt l delay x i).1 = (false, none)) →
      ((attempt l delay x k).1 = (true, none) →
        l.AcquireWithRetry n delay x = ((true, none), (attempt l delay x k).2)) ∧
      (∀ b e, (attempt l delay x k).1 = (b, some e) →
        l.AcquireWithRetry n delay x = ((false, some e), (attempt l delay x k).2)) ∧
      ((attempt l delay x k).1 ≠ (false, none) →
        (l.AcquireWithRetry n delay x).2.trace =
          x.trace ++ busyRounds l delay k ++ [Event.acquire l.key l.identifier l.ttl])) := by
  constructor
  · intro hbusy
    have h := retryLoop_skip_busy l delay x n.toNat 0
      (fun i hi => hbusy i (by omega))
    simp only [Nat.add_zero] at h
    have h2 : l.AcquireWithRetry n delay x = ((false, none), attemptState l delay x n.toNat) := by
      rw [DistributedLock.AcquireWithRetry, h]
      simp [retryLoop]
    exact ⟨h2, by rw [h2]; exact attemptState_trace l delay x n.toNat⟩
  · intro k hk hbusy
    obtain ⟨m, hm⟩ : ∃ m, n.toNat = k + (m + 1) := ⟨n.toNat - k - 1, by omega⟩
    have h := retryLoop_skip_busy l delay x k (m + 1) hbusy
    have hrun : l.AcquireWithRetry n delay x =
        retryLoop l delay (m + 1) (attemptState l delay x k) := by
      rw [DistributedLock.AcquireWithRetry, hm, h]
    have hok : (attempt l delay x k).1 = (true, none) →
        l.AcquireWithRetry n delay x = ((true, none), (attempt l delay x k).2) := by
      intro hr
      rw [hrun]
      simp only [attempt] at hr ⊢
      simp [retryLoop, hr]
    have herr : ∀ b e, (attempt l delay x k).1 = (b, some e) →
        l.AcquireWithRetry n delay x = ((false, some e), (attempt l delay x k).2) := by
      intro b e hr
      rw [hrun]
      simp only [attempt] at hr ⊢
      simp [retryLoop, hr]
    refine ⟨hok, herr, ?_⟩
    intro hne
    rcases hres : (attempt l delay x k).1 with ⟨b, o⟩
    cases o with
    | some e => rw [herr b e hres]; exact attempt_trace l delay x k
    | none =>
      cases b with
      | true => rw [hok hres]; exact attempt_trace l delay x k
      | false => exact absurd hres hne

/-- C4 (retry termination): for every `n ≥ 0` and every delay, when each of the `n` attempts
meets no store fault and finds the key held by a token other than the lock's own,
`AcquireWithRetry n delay` returns `(false, nil)`; its effects are exactly `n` rounds of one
`Acquire` call followed by one sleep of `delay`, so it makes `n` `Acquire` calls and the
durations it sleeps add up to `n * delay`. -/
theorem acquireWithRetry_against_held_lock (l : DistributedLock) (n : Int) (delay : Duration)
    (x : Exec) (hn : 0 ≤ n)
    (hheld : ∀ i : Nat, (i : Int) < n →
      (attemptState l delay x i).next.1 = none ∧
      ∃ t, t ≠ l.identifier ∧
        (attemptState l delay x i).next.2.world.store.GET l.key = some t) :
    (l.AcquireWithRetry n delay x).1 = (false, none) ∧
    (l.AcquireWithRetry n delay x).2.trace = x.trace ++ busyRounds l delay n.toNat ∧
    (acquireCalls (busyRounds l delay n.toNat) : Int) = n ∧
    sleepTotal (busyRounds l delay n.toNat) = n * delay := by
  have hbusy : ∀ i : Nat, i < n.toNat → (attempt l delay x i).1 = (false, none) := by
    intro i hi
    obtain ⟨hf, t, _, ht⟩ := hheld i (by omega)
    simp only [attempt, Exec.acquire, hf]
    exact Acquire_busy_of_held l _ t ht
  have h := retryLoop_skip_busy l delay x n.toNat 0 hbusy
  simp only [Nat.add_zero] at h
  have h2 : l.AcquireWithRetry n delay x = ((false, none), attemptState l delay x n.toNat) := by
    rw [DistributedLock.AcquireWithRetry, h]
    simp [retryLoop]
  refine ⟨by rw [h2], by rw [h2]; exact attemptState_trace l delay x n.toNat, ?_, ?_⟩
  · rw [acquireCalls_busyRounds]
    exact Int.toNat_of_nonneg hn
  · rw [sleepTotal_busyRounds, Int.toNat_of_nonneg hn]

/-! ## The workers -/

theorem busyRounds_isRetryEffect (l : DistributedLock) (delay : Duration) (k : Nat) :
    ∀ e ∈ busyRounds l delay k, e.isRetryEffect = true := by
  induction k with
  | zero => simp [busyRounds]
  | succ k ih =>
    intro e he
    simp only [busyRounds, List.mem_append, List.mem_cons, List.mem_singleton,
      List.not_mem_nil, or_false] at he
    rcases he with he | he | he
    · exact ih e he
    · rw [he]; rfl
    · rw [he]; rfl

/-- Whatever the loop returns, it has produced only `Acquire` calls and sleeps. -/
theorem retryLoop_effects (l : DistributedLock) (delay : Duration) (m : Nat) :
    ∀ x : Exec, ∃ evs, (retryLoop l delay m x).2.trace = x.trace ++ evs ∧
      ∀ e ∈ evs, e.isRetryEffect = true := by
  induction m with
  | zero => intro x; exact ⟨[], by simp [retryLoop], by simp⟩
  | succ m ih =>
    intro x
    have hacq : ∀ e ∈ [Event.acquire l.key l.identifier l.ttl], e.isRetryEffect = true := by
      intro e he
      rw [List.mem_singleton.mp he]; rfl
    unfold retryLoop
    split
    · exact ⟨_, Exec.acquire_trace x l, hacq⟩
    · split
      · exact ⟨_, Exec.acquire_trace x l, hacq⟩
      · obtain ⟨evs, h1, h2⟩ := ih ((x.acquire l).2.Sleep delay)
        refine ⟨[Event.acquire l.key l.identifier l.ttl, Event.sleep delay] ++ evs, ?_, ?_⟩
        · rw [h1, Exec.Sleep_trace, Exec.acquire_trace]
          simp
        · intro e he
          simp only [List.cons_append, List.nil_append, List.mem_cons] at he
          rcases he with he | he | he
          · rw [he]; rfl
          · rw [he]; rfl
          · exact h2 e he

/-- C10 (failed workers leave the counter untouched): for each of the two workers, the
call `AcquireWithRetry(15, 500ms)` itself produces nothing but `Acquire` calls and sleeps;
when it returns an error or `(false, nil)` the worker stops there, so the run (store, both
counters and the worker's effects) is exactly as that call left it, with no counter read, no
counter write and no `Release`; and when it returns `(true, nil)` the worker's further
effects are, in this order, the counter read, the 2 s sleep, the counter write and the
`Release`. -/
theorem failed_worker_touches_nothing (uuid : String) (x : Exec) :
    ((∃ evs, ((NewLock "inventory" uuid (10 * Second)).AcquireWithRetry 15
          (500 * Millisecond) x).2.trace = x.trace ++ evs ∧
        ∀ e ∈ evs, e.isRetryEffect = true) ∧
      (((∃ err, ((NewLock "inventory" uuid (10 * Second)).AcquireWithRetry 15
            (500 * Millisecond) x).1.2 = some err) ∨
          ((NewLock "inventory" uuid (10 * Second)).AcquireWithRetry 15
            (500 * Millisecond) x).1 = (false, none)) →
        inventoryWorker uuid x =
          ((NewLock "inventory" uuid (10 * Second)).AcquireWithRetry 15
            (500 * Millisecond) x).2) ∧
      (((NewLock "inventory" uuid (10 * Second)).AcquireWithRetry 15
            (500 * Millisecond) x).1 = (true, none) →
        ∃ c, (inventoryWorker uuid x).trace =
          ((NewLock "inventory" uuid (10 * Second)).AcquireWithRetry 15
            (500 * Millisecond) x).2.trace ++
          [Event.readInventory c, Event.sleep (2 * Second),
           Event.writeInventory (wrapInt (c + 10)), Event.release "lock:inventory" uuid])) ∧
    ((∃ evs, ((NewLock "orders" uuid (10 * Second)).AcquireWithRetry 15
          (500 * Millisecond) x).2.trace = x.trace ++ evs ∧
        ∀ e ∈ evs, e.isRetryEffect = true) ∧
      (((∃ err, ((NewLock "orders" uuid (10 * Second)).AcquireWithRetry 15
            (500 * Millisecond) x).1.2 = some err) ∨
          ((NewLock "orders" uuid (10 * Second)).AcquireWithRetry 15
            (500 * Millisecond) x).1 = (false, none)) →
        orderWorker uuid x =
          ((NewLock "orders" uuid (10 * Second)).AcquireWithRetry 15
            (500 * Millisecond) x).2) ∧
      (((NewLock "orders" uuid (10 * Second)).AcquireWithRetry 15
            (500 * Millisecond) x).1 = (true, none) →
        ∃ c, (orderWorker uuid x).trace =
          ((NewLock "orders" uuid (10 * Second)).AcquireWithRetry 15
            (500 * Millisecond) x).2.trace ++
          [Event.readOrders c, Event.sleep (2 * Second),
           Event.writeOrders (wrapInt (c + 1)), Event.release "lock:orders" uuid])) := by
  refine ⟨⟨retryLoop_effects _ _ _ x, ?_, ?_⟩, ⟨retryLoop_effects _ _ _ x, ?_, ?_⟩⟩
  · intro h
    rcases h with ⟨err, h⟩ | h
    · simp [inventoryWorker, h]
    · simp [inventoryWorker, h]
  · intro h
    simp only [inventoryWorker]
    generalize DistributedLock.AcquireWithRetry _ 15 (500 * Millisecond) x = r at h ⊢
    refine ⟨r.2.readInventory.1, ?_⟩
    simp [h, Exec.release, Exec.writeInventory, Exec.Sleep, Exec.readInventory, Exec.next_trace, NewLock]
  · intro h
    rcases h with ⟨err, h⟩ | h
    · simp [orderWorker, h]
    · simp [orderWorker, h]
  · intro h
    simp only [orderWorker]
    generalize DistributedLock.AcquireWithRetry _ 15 (500 * Millisecond) x = r at h ⊢
    refine ⟨r.2.readOrders.1, ?_⟩
    simp [h, Exec.release, Exec.writeOrders, Exec.Sleep, Exec.readOrders, Exec.next_trace, NewLock]

/-! ## Sequences of store operations: expiry and the per-key state machine -/

theorem Acquire_of_live (l : DistributedLock) (s : Store) (r : Lease)
    (h : s.live l.key = some r) : l.Acquire none s = ((false, none), s) := by
  simp [DistributedLock.Acquire, Store.SetNX, h]

theorem Acquire_of_free (l : DistributedLock) (s : Store) (h : s.live l.key = none) :
    l.Acquire none s =
      ((true, none),
       { now := s.now
         data := fun k2 => if k2 = l.key then some ⟨l.identifier, s.now + l.ttl⟩
           else s.data k2 }) := by
  simp [DistributedLock.Acquire, Store.SetNX, h]

theorem Release_of_ne (l : DistributedLock) (s : Store)
    (h : s.GET l.key ≠ some l.identifier) : l.Release none s = (none, s) := by
  simp [DistributedLock.Release, releaseScript_of_ne s _ _ h]

theorem Release_of_match (l : DistributedLock) (s : Store)
    (h : s.GET l.key = some l.identifier) :
    l.Release none s =
      (none, { now := s.now, data := fun k2 => if k2 = l.key then none else s.data k2 }) := by
  cases hl : s.live l.key with
  | none => simp [Store.GET, hl] at h
  | some r => simp [DistributedLock.Release, releaseScript, h, Store.DEL, hl]

/-- What a transition can do to the observable content of a key: either the key reads as
before, or it was free and the transition is a successful `Acquire` on it, whose identifier
is the new value. -/
theorem GET_after_apply (op : Op) (s : Store) (k v : String)
    (h : (op.apply s).GET k = some v) :
    s.GET k = some v ∨
    (s.GET k = none ∧ ∃ l f, op = Op.acquire l f ∧ l.key = k ∧ v = l.identifier ∧
      (l.Acquire f s).1.1 = true) := by
  cases op with
  | acquire l f =>
    cases f with
    | some e => left; exact h
    | none =>
      cases hl : s.live l.key with
      | some r =>
        left
        simp only [Op.apply, Acquire_of_live l s r hl] at h
        exact h
      | none =>
        simp only [Op.apply, Acquire_of_free l s hl] at h
        by_cases hk : k = l.key
        · right
          subst hk
          refine ⟨by simp [Store.GET, hl], l, none, rfl, rfl, ?_, ?_⟩
          · simp only [Store.GET, Store.live, if_true] at h
            split at h
            · simpa using h.symm
            · simp at h
          · rw [Acquire_of_free l s hl]
        · left
          simpa [Store.GET, Store.live, hk] using h
  | release l f =>
    left
    cases f with
    | some e => exact h
    | none =>
      by_cases hm : s.GET l.key = some l.identifier
      · simp only [Op.apply, Release_of_match l s hm] at h
        by_cases hk : k = l.key
        · simp [Store.GET, Store.live, hk] at h
        · simpa [Store.GET, Store.live, hk] using h
      · simp only [Op.apply, Release_of_ne l s hm] at h
        exact h
  | elapse dt =>
    left
    simp only [Op.apply, Store.advance, Store.GET, Store.live] at h ⊢
    cases hd : s.data k with
    | none => simp [hd] at h
    | some r =>
      simp only [hd] at h ⊢
      by_cases hlt : s.now + (dt : Int) < r.expiry
      · have : s.now < r.expiry := by omega
        simpa [hlt, this] using h
      · simp [hlt] at h

/-- An `Acquire` that returns true found its key free. -/
theorem Acquire_true_free (l : DistributedLock) (f : Option StoreFault) (s : Store)
    (h : (l.Acquire f s).1.1 = true) : s.GET l.key = none := by
  cases f with
  | some e => simp [DistributedLock.Acquire] at h
  | none =>
    cases hl : s.live l.key with
    | none => simp [Store.GET, hl]
    | some r =>
      rw [Acquire_of_live l s r hl] at h
      simp at h

/-- A transition that is not a successful `Acquire` on key `k` stores no new record under
`k`: whatever record is there afterwards was there before. -/
theorem data_after_apply (op : Op) (s : Store) (k : String) (r : Lease)
    (hw : op.wins k s = false) (h : (op.apply s).data k = some r) : s.data k = some r := by
  cases op with
  | acquire l f =>
    cases f with
    | some e => exact h
    | none =>
      cases hl : s.live l.key with
      | some r2 =>
        simp only [Op.apply, Acquire_of_live l s r2 hl] at h
        exact h
      | none =>
        simp only [Op.apply, Acquire_of_free l s hl] at h
        simp only [Op.wins, Acquire_of_free l s hl] at hw
        have hk2 : ¬ k = l.key := by
          intro e
          simp [e] at hw
        simpa [hk2] using h
  | release l f =>
    cases f with
    | some e => exact h
    | none =>
      by_cases hm : s.GET l.key = some l.identifier
      · simp only [Op.apply, Release_of_match l s hm] at h
        by_cases hk : k = l.key
        · simp [hk] at h
        · simpa [hk] using h
      · simp only [Op.apply, Release_of_ne l s hm] at h
        exact h
  | elapse dt => exact h

/-- With no acquisition on key `k` along the way, every record found under `k` at the end
was already there at the start. -/
theorem data_after_runOps (k : String) (ops : List Op) :
    ∀ (s : Store) (r : Lease), acquisitions k ops s = 0 →
      (runOps ops s).data k = some r → s.data k = some r := by
  induction ops with
  | nil => intro s r _ h; exact h
  | cons op ops ih =>
    intro s r hz h
    simp only [acquisitions] at hz
    have hw : op.wins k s = false := by
      cases hwv : op.wins k s with
      | false => rfl
      | true => simp [hwv] at hz
    have hz2 : acquisitions k ops (op.apply s) = 0 := by omega
    exact data_after_apply op s k r hw (ih (op.apply s) r hz2 h)

/-- C9 (expiry safety): let lock A, with ttl `d`, acquire successfully at instant `t0`, and
let any transitions follow (elapsing time, releases, acquire attempts) among which no
`Acquire` on the key returns true.  Then an `Acquire` by any lock B on the same resource,
made when the store's clock reads `t0 + d` or later, returns true; A need never call
`Release`. -/
theorem expired_lease_can_be_acquired (A B : DistributedLock) (s0 : Store) (ops : List Op)
    (hkey : B.key = A.key)
    (hA : (A.Acquire none s0).1 = (true, none))
    (hquiet : acquisitions A.key ops (A.Acquire none s0).2 = 0)
    (hlate : s0.now + A.ttl ≤ (runOps ops (A.Acquire none s0).2).now) :
    (B.Acquire none (runOps ops (A.Acquire none s0).2)).1 = (true, none) := by
  have hfree : s0.live A.key = none :=
    (Store.GET_eq_none_iff s0 A.key).mp (Acquire_true_free A none s0 (by rw [hA]))
  have hrec : (A.Acquire none s0).2.data A.key = some ⟨A.identifier, s0.now + A.ttl⟩ := by
    rw [Acquire_of_free A s0 hfree]
    simp
  have hlive : (runOps ops (A.Acquire none s0).2).live B.key = none := by
    rw [hkey]
    unfold Store.live
    cases hd : (runOps ops (A.Acquire none s0).2).data A.key with
    | none => rfl
    | some r =>
      have h0 := data_after_runOps A.key ops _ r hquiet hd
      rw [hrec] at h0
      have hr : r.expiry = s0.now + A.ttl := by
        have := Option.some.inj h0
        rw [← this]
      have : ¬ (runOps ops (A.Acquire none s0).2).now < r.expiry := by omega
      simp [this]
  rw [Acquire_of_free B _ hlive]

theorem Tracked.run_append (ops : List Op) :
    ∀ (t : Tracked) (op : Op), Tracked.run (ops ++ [op]) t = (Tracked.run ops t).step op := by
  induction ops with
  | nil => intro t op; rfl
  | cons o ops ih => intro t op; simp [Tracked.run, ih]

/-- One transition keeps the history variable in step with the store. -/
theorem Tracked.step_inv (t : Tracked) (op : Op)
    (h : ∀ k v, t.store.GET k = some v → t.winner k = some v) :
    ∀ k v, (t.step op).store.GET k = some v → (t.step op).winner k = some v := by
  intro k v hv
  rcases GET_after_apply op t.store k v hv with h1 | ⟨h1, l, f, hop, hk, hid, hres⟩
  · have hw := h k v h1
    cases op with
    | acquire l f =>
      simp only [Tracked.step]
      split
      · rename_i hres
        have := Acquire_true_free l f t.store hres
        by_cases hk : k = l.key
        · rw [hk, this] at h1
          simp at h1
        · simp [hk, hw]
      · exact hw
    | release l f => exact hw
    | elapse dt => exact hw
  · subst hop
    simp [Tracked.step, hres, hk, hid]

/-- C6 (per-resource state machine): after every sequence of `Acquire`, `Release` and
time-elapse transitions from an initially empty store, by any locks, (a) each key has at most
one record (the store is a map) and a live record's value is the identifier of the lock whose
`Acquire` most recently returned true on that key; (b) no single further transition takes a
key from holding `t1` to holding a different `t2`; (c) every `Acquire` that returns true
finds the key free. -/
theorem lease_state_machine (t0 : Int) (ops : List Op) :
    (∀ k v, (Tracked.run ops (Tracked.init t0)).store.GET k = some v →
      (Tracked.run ops (Tracked.init t0)).winner k = some v) ∧
    (∀ (op : Op) k t1 t2, (Tracked.run ops (Tracked.init t0)).store.GET k = some t1 →
      (op.apply (Tracked.run ops (Tracked.init t0)).store).GET k = some t2 → t1 = t2) ∧
    (∀ (l : DistributedLock) f,
      (l.Acquire f (Tracked.run ops (Tracked.init t0)).store).1.1 = true →
      (Tracked.run ops (Tracked.init t0)).store.GET l.key = none) := by
  refine ⟨?_, ?_, ?_⟩
  · induction ops using List.reverseRecOn with
    | nil =>
      intro k v h
      simp [Tracked.run, Tracked.init, Store.empty, Store.GET, Store.live] at h
    | append_singleton ops op ih =>
      rw [Tracked.run_append]
      exact Tracked.step_inv _ op ih
  · intro op k t1 t2 h1 h2
    rcases GET_after_apply op _ k t2 h2 with h3 | ⟨h3, _⟩
    · rw [h1] at h3
      exact Option.some.inj h3
    · rw [h1] at h3
      simp at h3
  · intro l f h
    exact Acquire_true_free l f _ h

/-! ## The statements at concrete inputs -/

/-- C1 at `heldStore`: `uuid2` releasing the lease of `uuid1`. -/
theorem release_with_other_token_is_noop_witness :
    (NewLock "inventory" uuid2 10).Release none heldStore = (none, heldStore) ∧
    ((NewLock "inventory" uuid2 10).Release none heldStore).2.GET ("lock:" ++ "inventory")
      = some uuid1 :=
  release_with_other_token_is_noop heldStore "inventory" uuid1 uuid2 10 (by decide) (by decide)

/-- C2 on the empty store (acquired) and on `heldStore` (refused). -/
theorem acquire_semantics_witness :
    ((NewLock "inventory" uuid2 10).Acquire none (Store.empty 0)).2.data "lock:inventory"
      = some ⟨uuid2, 10⟩ ∧
    ((NewLock "inventory" uuid2 10).Acquire none heldStore).2 = heldStore :=
  ⟨((acquire_semantics (Store.empty 0) (NewLock "inventory" uuid2 10)).2.2.1 (by decide)).1,
   ((acquire_semantics heldStore (NewLock "inventory" uuid2 10)).2.2.2 (by decide)).1⟩

/-- C5 at `heldStore`: a lock that never acquired releases. -/
theorem release_idempotent_witness :
    (NewLock "inventory" uuid2 10).Release none heldStore = (none, heldStore) :=
  (release_idempotent heldStore (NewLock "inventory" uuid2 10)).1
    (Or.inr ⟨uuid1, by decide, by decide⟩)

/-- C3 on `freedExec`: the first attempt is busy, the second succeeds, the third is never
made. -/
theorem acquireWithRetry_outcome_witness :
    ((NewLock "inventory" uuid2 10).AcquireWithRetry 3 500 freedExec).1 = (true, none) ∧
    ((NewLock "inventory" uuid2 10).AcquireWithRetry 3 500 freedExec).2.trace =
      [Event.acquire "lock:inventory" uuid2 10, Event.sleep 500,
       Event.acquire "lock:inventory" uuid2 10] :=
  have h := (acquireWithRetry_outcome (NewLock "inventory" uuid2 10) 3 500 freedExec).2 1
    (by decide) (fun i hi => by interval_cases i; decide)
  ⟨by rw [h.1 (by decide)], by rw [h.2.2 (by decide)]; rfl⟩

/-- C4 on `heldExec`: two attempts against a lock held throughout. -/
theorem acquireWithRetry_against_held_lock_witness :
    ((NewLock "inventory" uuid2 10).AcquireWithRetry 2 500 heldExec).1 = (false, none) ∧
    ((NewLock "inventory" uuid2 10).AcquireWithRetry 2 500 heldExec).2.trace =
      heldExec.trace ++ busyRounds (NewLock "inventory" uuid2 10) 500 (2 : Int).toNat ∧
    (acquireCalls (busyRounds (NewLock "inventory" uuid2 10) 500 (2 : Int).toNat) : Int) = 2 ∧
    sleepTotal (busyRounds (NewLock "inventory" uuid2 10) 500 (2 : Int).toNat) = 2 * 500 :=
  acquireWithRetry_against_held_lock (NewLock "inventory" uuid2 10) 2 500 heldExec (by decide)
    (fun i hi => by
      have hi2 : i < 2 := by omega
      interval_cases i
      · exact ⟨rfl, uuid1, by decide, by decide⟩
      · exact ⟨rfl, uuid1, by decide, by decide⟩)

/-- C10 on `heldExec`: all 15 attempts are busy and the worker leaves the run as
`AcquireWithRetry` left it. -/
theorem failed_worker_touches_nothing_witness :
    inventoryWorker uuid2 heldExec =
      ((NewLock "inventory" uuid2 (10 * Second)).AcquireWithRetry 15 (500 * Millisecond)
        heldExec).2 :=
  (failed_worker_touches_nothing uuid2 heldExec).1.2.1 (Or.inr (by decide))

/-- C9 from the empty store: the first lock acquires with ttl 10, the second is refused at
once and acquires 10 ns later. -/
theorem expired_lease_can_be_acquired_witness :
    ((NewLock "inventory" uuid2 10).Acquire none
      (runOps waitingOps ((NewLock "inventory" uuid1 10).Acquire none (Store.empty 0)).2)).1
      = (true, none) :=
  expired_lease_can_be_acquired (NewLock "inventory" uuid1 10) (NewLock "inventory" uuid2 10)
    (Store.empty 0) waitingOps rfl (by decide) (by decide) (by decide)

/-- C6 on `sampleOps`: the live value `uuid2` is the most recent winner. -/
theorem lease_state_machine_witness :
    (Tracked.run sampleOps (Tracked.init 0)).winner "lock:inventory" = some uuid2 :=
  (lease_state_machine 0 sampleOps).1 "lock:inventory" uuid2 (by decide)

/-! ## Concurrent workers: what the lease does and does not guarantee -/

theorem List.map_set_same {α β : Type} (f : α → β) (b : α) :
    ∀ (l : List α) (i : Nat) (a : α), l[i]? = some a → f b = f a →
      (l.set i b).map f = l.map f := by
  intro l
  induction l with
  | nil => intro i a h _; simp at h
  | cons x xs ih =>
    intro i a h hf
    cases i with
    | zero =>
      simp at h
      simp [List.set, hf, h]
    | succ i =>
      simp at h
      simp [List.set, ih i a h hf]

theorem List.index_eq_of_nodup_map {α β : Type} (f : α → β) (l : List α)
    (hn : (l.map f).Nodup) (i j : Nat) (a b : α) (hi : l[i]? = some a) (hj : l[j]? = some b)
    (hf : f a = f b) : i = j := by
  have h1 : (l.map f)[i]? = some (f a) := by simp [hi]
  have h2 : (l.map f)[j]? = some (f a) := by simp [hj, hf]
  have hjl : j < (l.map f).length := by
    by_contra hc
    rw [List.getElem?_eq_none (by omega)] at h2
    simp at h2
  have hil : i < (l.map f).length := by
    by_contra hc
    rw [List.getElem?_eq_none (by omega)] at h1
    simp at h1
  rw [List.nodup_iff_getElem?_ne_getElem?] at hn
  rcases Nat.lt_trichotomy i j with h | h | h
  · exact absurd (h1.trans h2.symm) (hn i j h hjl)
  · exact h
  · exact absurd (h2.trans h1.symm) (hn j i h hil)

theorem Acquire_now (l : DistributedLock) (f : Option StoreFault) (s : Store) :
    (l.Acquire f s).2.now = s.now := by
  cases f with
  | some e => rfl
  | none =>
    cases hl : s.live l.key with
    | none => rw [Acquire_of_free l s hl]
    | some r => rw [Acquire_of_live l s r hl]

theorem Release_now (l : DistributedLock) (f : Option StoreFault) (s : Store) :
    (l.Release f s).2.now = s.now := by
  cases f with
  | some e => rfl
  | none =>
    by_cases hm : s.GET l.key = some l.identifier
    · rw [Release_of_match l s hm]
    · rw [Release_of_ne l s hm]

/-- An `Acquire` leaves every live record in place. -/
theorem Acquire_data_of_live (l : DistributedLock) (f : Option StoreFault) (s : Store)
    (k : String) (r : Lease) (h : s.live k = some r) : (l.Acquire f s).2.data k = s.data k := by
  cases f with
  | some e => rfl
  | none =>
    cases hl : s.live l.key with
    | some r2 => rw [Acquire_of_live l s r2 hl]
    | none =>
      have hk : ¬ k = l.key := by
        intro e
        rw [e, hl] at h
        simp at h
      rw [Acquire_of_free l s hl]
      simp [hk]

/-- A `Release` leaves in place every live record whose value is another identifier. -/
theorem Release_data_of_other (l : DistributedLock) (f : Option StoreFault) (s : Store)
    (k : String) (r : Lease) (h : s.live k = some r) (hv : r.value ≠ l.identifier) :
    (l.Release f s).2.data k = s.data k := by
  cases f with
  | some e => rfl
  | none =>
    by_cases hm : s.GET l.key = some l.identifier
    · have hk : ¬ k = l.key := by
        intro e
        rw [e] at h
        simp [Store.GET, h] at hm
        exact hv hm
      rw [Release_of_match l s hm]
      simp [hk]
    · rw [Release_of_ne l s hm]

theorem Worker.step_static (w : Worker) (f : Option StoreFault) (wd : World) :
    (w.step f wd).1.job = w.job ∧ (w.step f wd).1.uuid = w.uuid := by
  rcases w with ⟨job, uuid, phase⟩
  cases phase with
  | attempting left =>
    cases left with
    | zero => simp [Worker.step]
    | succ n =>
      simp only [Worker.step]
      split
      · simp
      · split <;> simp
  | backoff left wake => simp only [Worker.step]; split <;> simp
  | acquired since => simp [Worker.step]
  | critical c wake since => simp only [Worker.step]; split <;> simp
  | written => simp [Worker.step]
  | finished b => simp [Worker.step]

theorem Worker.step_lock (w : Worker) (f : Option StoreFault) (wd : World) :
    (w.step f wd).1.lock = w.lock := by
  simp [Worker.lock, (Worker.step_static w f wd).1, (Worker.step_static w f wd).2]

theorem Worker.step_now (w : Worker) (f : Option StoreFault) (wd : World) :
    (w.step f wd).2.store.now = wd.store.now := by
  rcases w with ⟨job, uuid, phase⟩
  cases phase with
  | attempting left =>
    cases left with
    | zero => simp [Worker.step]
    | succ n =>
      simp only [Worker.step]
      split
      · simp [Acquire_now]
      · split <;> simp [Acquire_now]
  | backoff left wake => simp only [Worker.step]; split <;> simp
  | acquired since => simp [Worker.step]
  | critical c wake since =>
    simp only [Worker.step]
    split
    · cases job <;> simp [World.setCounter]
    · simp
  | written => simp [Worker.step, Release_now]
  | finished b => simp [Worker.step]

/-- A step of a worker leaves in place every live record that carries another identifier. -/
theorem Worker.step_protects (w : Worker) (f : Option StoreFault) (wd : World) (k : String)
    (r : Lease) (h : wd.store.live k = some r) (hv : r.value ≠ w.uuid) :
    (w.step f wd).2.store.data k = wd.store.data k := by
  rcases w with ⟨job, uuid, phase⟩
  cases phase with
  | attempting left =>
    cases left with
    | zero => simp [Worker.step]
    | succ n =>
      simp only [Worker.step]
      split
      · exact Acquire_data_of_live _ f wd.store k r h
      · split <;> exact Acquire_data_of_live _ f wd.store k r h
  | backoff left wake => simp only [Worker.step]; split <;> simp
  | acquired since => simp [Worker.step]
  | critical c wake since =>
    simp only [Worker.step]
    split
    · cases job <;> simp [World.setCounter]
    · simp
  | written => exact Release_data_of_other _ f wd.store k r h hv
  | finished b => simp [Worker.step]

/-- A worker that holds after its step either held before, the store untouched, or has just
created its own record. -/
theorem Worker.step_holds (w : Worker) (f : Option StoreFault) (wd : World) (since : Int)
    (h : (w.step f wd).1.holdsSince = some since) :
    (w.holdsSince = some since ∧ (w.step f wd).2.store = wd.store) ∨
    (w.step f wd).2.store.data w.lock.key = some ⟨w.uuid, since + w.lock.ttl⟩ := by
  rcases w with ⟨job, uuid, phase⟩
  cases phase with
  | attempting left =>
    cases left with
    | zero => simp [Worker.step, Worker.holdsSince] at h
    | succ n =>
      right
      simp only [Worker.step] at h ⊢
      split at h
      · simp [Worker.holdsSince] at h
      · split at h
        · rename_i hnone htrue
          simp only [Worker.holdsSince] at h
          have hs : wd.store.now = since := Option.some.inj h
          cases f with
          | some e => simp [DistributedLock.Acquire] at hnone
          | none =>
            have hfree := (Store.GET_eq_none_iff _ _).mp (Acquire_true_free _ none wd.store htrue)
            simp only [hnone, htrue, if_true]
            rw [Acquire_of_free _ wd.store hfree]
            simp [Worker.lock, NewLock, hs]
        · simp [Worker.holdsSince] at h
  | backoff left wake =>
    simp only [Worker.step] at h
    split at h <;> simp [Worker.holdsSince] at h
  | acquired s0 =>
    left
    simp only [Worker.step, Worker.holdsSince] at h ⊢
    exact ⟨h, trivial⟩
  | critical c wake s0 =>
    simp only [Worker.step] at h ⊢
    split at h
    · simp [Worker.holdsSince] at h
    · left
      rename_i hw
      simp only [hw, if_false]
      exact ⟨h, trivial⟩
  | written => simp [Worker.step, Worker.holdsSince] at h
  | finished b => simp [Worker.step, Worker.holdsSince] at h

theorem Sys.step_uuids (s : Sys) (a : Action) :
    (s.step a).workers.map Worker.uuid = s.workers.map Worker.uuid := by
  cases a with
  | run i f =>
    simp only [Sys.step]
    cases hw : s.workers[i]? with
    | none => rfl
    | some w => exact List.map_set_same _ _ _ i w hw (Worker.step_static w f s.world).2
  | elapse dt => rfl

theorem Sys.step_jobs (s : Sys) (a : Action) :
    (s.step a).workers.map Worker.job = s.workers.map Worker.job := by
  cases a with
  | run i f =>
    simp only [Sys.step]
    cases hw : s.workers[i]? with
    | none => rfl
    | some w => exact List.map_set_same _ _ _ i w hw (Worker.step_static w f s.world).1
  | elapse dt => rfl

/-- Every scheduler action keeps the lease invariant. -/
theorem Sys.LeaseInv_step (s : Sys) (a : Action) (h : s.LeaseInv) : (s.step a).LeaseInv := by
  obtain ⟨hn, hl⟩ := h
  refine ⟨by rw [Sys.step_uuids]; exact hn, ?_⟩
  cases a with
  | elapse dt =>
    intro j wj since hj hs
    rcases hl j wj since hj hs with h1 | h1
    · left; exact h1
    · right
      simp only [Sys.step, Store.advance]
      omega
  | run i f =>
    simp only [Sys.step]
    cases hw : s.workers[i]? with
    | none => exact hl
    | some w =>
      intro j wj since hj hs
      simp only at hj ⊢
      have hil : i < s.workers.length := by
        by_contra hc
        rw [List.getElem?_eq_none (by omega)] at hw
        simp at hw
      rw [List.getElem?_set] at hj
      by_cases hij : i = j
      · simp only [hij, if_true] at hj
        rw [if_pos (hij ▸ hil)] at hj
        have hwj : wj = (w.step f s.world).1 := (Option.some.inj hj).symm
        subst hwj
        rw [Worker.step_lock, (Worker.step_static w f s.world).2, Worker.step_now]
        rcases Worker.step_holds w f s.world since hs with ⟨h1, h2⟩ | h1
        · rw [h2]
          exact hl i w since hw h1
        · left; exact h1
      · simp only [hij, if_false] at hj
        rw [Worker.step_now]
        rcases hl j wj since hj hs with h1 | h1
        · by_cases hexp : since + wj.lock.ttl ≤ s.world.store.now
          · right; exact hexp
          · left
            have hlive : s.world.store.live wj.lock.key = some ⟨wj.uuid, since + wj.lock.ttl⟩ := by
              simp only [Store.live, h1]
              rw [if_pos (by omega)]
            have hne : wj.uuid ≠ w.uuid := by
              intro e
              exact hij (List.index_eq_of_nodup_map Worker.uuid s.workers hn i j w wj hw hj e.symm)
            rw [Worker.step_protects w f s.world _ _ hlive hne]
            exact h1
        · right; exact h1

theorem Sys.LeaseInv_run (acts : List Action) :
    ∀ s : Sys, s.LeaseInv → (Sys.run acts s).LeaseInv := by
  induction acts with
  | nil => intro s h; exact h
  | cons a acts ih => intro s h; exact ih _ (Sys.LeaseInv_step s a h)

/-- Under the lease invariant two distinct workers on the same resource never both have a
running lease. -/
theorem Sys.LeaseInv_excludes (s : Sys) (h : s.LeaseInv) (i j : Nat) (wi wj : Worker)
    (hi : s.workers[i]? = some wi) (hj : s.workers[j]? = some wj) (hij : i ≠ j)
    (hjob : wi.job = wj.job)
    (hri : wi.leaseRunning s.world.store.now = true)
    (hrj : wj.leaseRunning s.world.store.now = true) : False := by
  obtain ⟨hn, hl⟩ := h
  simp only [Worker.leaseRunning] at hri hrj
  cases hsi : wi.holdsSince with
  | none => simp [hsi] at hri
  | some si =>
    cases hsj : wj.holdsSince with
    | none => simp [hsj] at hrj
    | some sj =>
      simp only [hsi, decide_eq_true_eq] at hri
      simp only [hsj, decide_eq_true_eq] at hrj
      have hkey : wi.lock.key = wj.lock.key := by simp [Worker.lock, NewLock, hjob]
      rcases hl i wi si hi hsi with h1 | h1
      · rcases hl j wj sj hj hsj with h2 | h2
        · rw [hkey, h2] at h1
          have hu : wj.uuid = wi.uuid := by
            have := Option.some.inj h1
            exact congrArg Lease.value this
          exact hij (List.index_eq_of_nodup_map Worker.uuid s.workers hn i j wi wj hi hj hu.symm)
        · omega
      · omega

/-- C7 (mutual exclusion, as far as the lease carries it): take any number of workers just
past the start gate, with pairwise distinct identifiers, any shared world and any
interleaving of their steps with the passage of time.  At the point reached, two distinct
workers on the same resource are never both inside their critical sections while both of
their leases are still running: critical sections overlap only once a holder has outlived
its 10 s lease. -/
theorem mutual_exclusion_while_leases_run (wd : World) (ws : List Worker) (acts : List Action)
    (hstart : ∀ w ∈ ws, w.phase = Phase.attempting 15)
    (hnodup : (ws.map Worker.uuid).Nodup)
    (i j : Nat) (wi wj : Worker)
    (hi : (Sys.run acts { world := wd, workers := ws }).workers[i]? = some wi)
    (hj : (Sys.run acts { world := wd, workers := ws }).workers[j]? = some wj)
    (hij : i ≠ j) (hjob : wi.job = wj.job) :
    ¬ (wi.inCritical = true ∧ wj.inCritical = true ∧
       wi.leaseRunning (Sys.run acts { world := wd, workers := ws }).world.store.now = true ∧
       wj.leaseRunning (Sys.run acts { world := wd, workers := ws }).world.store.now = true) := by
  have h0 : Sys.LeaseInv { world := wd, workers := ws } := by
    refine ⟨hnodup, ?_⟩
    intro k w since hk hs
    have hm : w ∈ ws := List.getElem?_mem hk
    simp [Worker.holdsSince, hstart w hm] at hs
  have h := Sys.LeaseInv_run acts _ h0
  rintro ⟨_, _, hri, hrj⟩
  exact Sys.LeaseInv_excludes _ h i j wi wj hi hj hij hjob hri hrj

/-- C7 as claimed fails: in the system `main` starts, after `lapseActs` workers 0 and 1 are
both inside the critical section of `inventory`. -/
theorem mutual_exclusion_fails_after_lapse :
    ¬ MutualExclusion (Sys.run lapseActs (mainStart (Store.empty 0) uuid1 uuid2 uuid3 uuid4 uuid5)) :=
  fun h => h 0 1 _ _ rfl rfl (by decide) (by decide) ⟨by decide, by decide⟩

/-! ## Concurrent workers: the counters -/

theorem List.sum_map_set {α : Type} (f : α → Int) (b : α) :
    ∀ (l : List α) (i : Nat) (a : α), l[i]? = some a →
      ((l.set i b).map f).sum = (l.map f).sum - f a + f b := by
  intro l
  induction l with
  | nil => intro i a h; simp at h
  | cons x xs ih =>
    intro i a h
    cases i with
    | zero =>
      simp at h
      subst h
      simp only [List.set, List.map_cons, List.sum_cons]
      ring
    | succ i =>
      simp at h
      simp only [List.set, List.map_cons, List.sum_cons, ih i a h]
      ring

theorem Worker.credit_bounds (job : Job) (w : Worker) :
    0 ≤ w.credit job ∧ w.credit job ≤ 10 := by
  unfold Worker.credit
  split
  · split <;> cases job <;> simp [Job.increment]
  · simp

theorem Worker.credit_sum_bounds (job : Job) (l : List Worker) :
    0 ≤ (l.map (Worker.credit job)).sum ∧
    (l.map (Worker.credit job)).sum ≤ 10 * (l.length : Int) := by
  induction l with
  | nil => simp
  | cons w ws ih =>
    have hb := Worker.credit_bounds job w
    simp only [List.map_cons, List.sum_cons, List.length_cons]
    push_cast
    omega

theorem wrapInt_of_small (v : Int) (h0 : 0 ≤ v) (h1 : v < 2 ^ 63) : wrapInt v = v := by
  unfold wrapInt
  omega

/-- A step that is not a counter write changes no counter and no contribution. -/
theorem Worker.step_keeps_counters (w : Worker) (f : Option StoreFault) (wd : World)
    (h : ∀ c wake since, w.phase = Phase.critical c wake since → ¬ wake ≤ wd.store.now)
    (job : Job) :
    (w.step f wd).2.counter job = wd.counter job ∧
    (w.step f wd).1.credit job = w.credit job := by
  rcases w with ⟨wjob, uuid, phase⟩
  cases phase with
  | attempting left =>
    cases left with
    | zero => cases job <;> simp [Worker.step, Worker.credit, World.counter]
    | succ n =>
      simp only [Worker.step]
      split
      · cases job <;> simp [Worker.credit, World.counter]
      · split <;> cases job <;> simp [Worker.credit, World.counter]
  | backoff left wake =>
    simp only [Worker.step]
    split <;> cases job <;> simp [Worker.credit, World.counter]
  | acquired since => cases job <;> simp [Worker.step, Worker.credit, World.counter]
  | critical c wake since =>
    have := h c wake since rfl
    simp [Worker.step, this]
  | written => cases job <;> simp [Worker.step, Worker.credit, World.counter]
  | finished b => simp [Worker.step]

/-- The counter write: the worker's own counter becomes the value it read plus its
increment, the other counter is untouched, and the worker's contribution goes from nothing
to its increment. -/
theorem Worker.step_write (w : Worker) (f : Option StoreFault) (wd : World)
    (c wake since : Int) (hp : w.phase = Phase.critical c wake since)
    (hwake : wake ≤ wd.store.now) (job : Job) :
    (w.step f wd).1.phase = Phase.written ∧ w.credit job = 0 ∧
    (job = w.job → (w.step f wd).2.counter job = wrapInt (c + job.increment) ∧
      (w.step f wd).1.credit job = job.increment) ∧
    (job ≠ w.job → (w.step f wd).2.counter job = wd.counter job ∧
      (w.step f wd).1.credit job = 0) := by
  rcases w with ⟨wjob, uuid, phase⟩
  simp only at hp
  subst hp
  refine ⟨by simp [Worker.step, hwake], by simp [Worker.credit], ?_, ?_⟩
  · intro hj
    simp only at hj
    subst hj
    cases job <;> simp [Worker.step, hwake, World.setCounter, World.counter, Worker.credit]
  · intro hj
    simp only at hj
    cases job <;> cases wjob <;>
      simp_all [Worker.step, World.setCounter, World.counter, Worker.credit]

/-- A worker that is inside its critical section after a step has either just read the
counter or was there already. -/
theorem Worker.step_into_critical (w : Worker) (f : Option StoreFault) (wd : World)
    (c wake since : Int) (h : (w.step f wd).1.phase = Phase.critical c wake since) :
    (w.phase = Phase.acquired since ∧ c = wd.counter w.job) ∨
    w.phase = Phase.critical c wake since := by
  rcases w with ⟨wjob, uuid, phase⟩
  cases phase with
  | attempting left =>
    cases left with
    | zero => simp [Worker.step] at h
    | succ n =>
      simp only [Worker.step] at h
      split at h
      · simp at h
      · split at h <;> simp at h
  | backoff left wake2 =>
    simp only [Worker.step] at h
    split at h <;> simp at h
  | acquired s0 =>
    left
    simp only [Worker.step, Phase.critical.injEq] at h
    simp [h.1, h.2.2]
  | critical c2 wake2 s2 =>
    right
    simp only [Worker.step] at h
    split at h
    · simp at h
    · exact h
  | written => simp [Worker.step] at h
  | finished b => simp [Worker.step] at h

theorem Worker.leaseRunning_of_critical (w : Worker) (c wake since now : Int)
    (hp : w.phase = Phase.critical c wake since) :
    w.leaseRunning now = true ↔ now < since + w.lock.ttl := by
  simp [Worker.leaseRunning, Worker.holdsSince, hp]

/-- A timely scheduler action keeps the counter invariant. -/
theorem Sys.CountInv_step (s : Sys) (a : Action) (hl : s.LeaseInv) (hc : s.CountInv)
    (ht : a.timely s = true) : (s.step a).CountInv := by
  obtain ⟨hsmall, hfresh, hcount⟩ := hc
  cases a with
  | elapse dt =>
    refine ⟨hsmall, ?_, hcount⟩
    intro j wj c wake since hj hp hrun
    refine hfresh j wj c wake since hj hp ?_
    simp only [Sys.step, Store.advance] at hrun
    omega
  | run i f =>
    simp only [Sys.step]
    cases hw : s.workers[i]? with
    | none => exact ⟨hsmall, hfresh, hcount⟩
    | some w =>
      simp only
      have hil : i < s.workers.length := by
        by_contra hcon
        rw [List.getElem?_eq_none (by omega)] at hw
        simp at hw
      have hget : ∀ j wj, (s.workers.set i (w.step f s.world).1)[j]? = some wj →
          (j = i ∧ wj = (w.step f s.world).1) ∨ (j ≠ i ∧ s.workers[j]? = some wj) := by
        intro j wj hj
        rw [List.getElem?_set] at hj
        by_cases hij : i = j
        · left
          simp only [hij, if_true] at hj
          rw [if_pos (hij ▸ hil)] at hj
          exact ⟨hij.symm, (Option.some.inj hj).symm⟩
        · right
          simp only [hij, if_false] at hj
          exact ⟨fun e => hij e.symm, hj⟩
      by_cases hwrite : ∃ c wake since, w.phase = Phase.critical c wake since ∧
          wake ≤ s.world.store.now
      · obtain ⟨c, wake, since, hp, hwake⟩ := hwrite
        have hrun : w.leaseRunning s.world.store.now = true := by
          simp only [Action.timely, hw, hp] at ht
          simpa [hwake] using ht
        have hlt : s.world.store.now < since + w.lock.ttl :=
          (Worker.leaseRunning_of_critical w c wake since _ hp).mp hrun
        have hcur : c = s.world.counter w.job := hfresh i w c wake since hw hp hlt
        refine ⟨by simpa using hsmall, ?_, ?_⟩
        · intro j wj c2 wake2 since2 hj hp2 hrun2
          rcases hget j wj hj with ⟨_, hwj⟩ | ⟨hji, hj0⟩
          · rw [hwj, (Worker.step_write w f s.world c wake since hp hwake w.job).1] at hp2
            simp at hp2
          · rw [Worker.step_now] at hrun2
            by_cases hjob : wj.job = w.job
            · exfalso
              exact Sys.LeaseInv_excludes s hl i j w wj hw hj0 (fun e => hji e.symm) hjob.symm
                hrun ((Worker.leaseRunning_of_critical wj c2 wake2 since2 _ hp2).mpr hrun2)
            · rw [((Worker.step_write w f s.world c wake since hp hwake wj.job).2.2.2 hjob).1]
              exact hfresh j wj c2 wake2 since2 hj0 hp2 hrun2
        · intro job
          have hsum := List.sum_map_set (Worker.credit job) (w.step f s.world).1 s.workers i w hw
          have hw4 := Worker.step_write w f s.world c wake since hp hwake job
          rw [hsum, hw4.2.1]
          by_cases hjob : job = w.job
          · subst hjob
            have hb := Worker.credit_sum_bounds w.job (s.workers.set i (w.step f s.world).1)
            rw [hsum, hw4.2.1, (hw4.2.2.1 rfl).2, ← hcount w.job, ← hcur,
              List.length_set] at hb
            rw [(hw4.2.2.1 rfl).1, (hw4.2.2.1 rfl).2, ← hcount w.job, ← hcur,
              wrapInt_of_small (c + w.job.increment) (by omega) (by omega)]
            ring
          · rw [(hw4.2.2.2 hjob).1, (hw4.2.2.2 hjob).2, ← hcount job]
            ring
      · have hno : ∀ c wake since, w.phase = Phase.critical c wake since →
            ¬ wake ≤ s.world.store.now := by
          intro c wake since hp hwake
          exact hwrite ⟨c, wake, since, hp, hwake⟩
        have hkeep := Worker.step_keeps_counters w f s.world hno
        refine ⟨by simpa using hsmall, ?_, ?_⟩
        · intro j wj c2 wake2 since2 hj hp2 hrun2
          rw [Worker.step_now] at hrun2
          rcases hget j wj hj with ⟨_, hwj⟩ | ⟨hji, hj0⟩
          · subst hwj
            rw [(hkeep _).1, (Worker.step_static w f s.world).1]
            rw [Worker.step_lock] at hrun2
            rcases Worker.step_into_critical w f s.world c2 wake2 since2 hp2 with ⟨_, h2⟩ | h2
            · exact h2
            · exact hfresh i w c2 wake2 since2 hw h2 hrun2
          · rw [(hkeep _).1]
            exact hfresh j wj c2 wake2 since2 hj0 hp2 hrun2
        · intro job
          rw [(hkeep job).1, hcount job,
            List.map_set_same (Worker.credit job) _ s.workers i w hw (hkeep job).2]

theorem Sys.invariants_run (acts : List Action) :
    ∀ s : Sys, s.LeaseInv → s.CountInv → Sys.timelyRun acts s = true →
      (Sys.run acts s).CountInv := by
  induction acts with
  | nil => intro s _ hc _; exact hc
  | cons a acts ih =>
    intro s hl hc ht
    simp only [Sys.timelyRun, Bool.and_eq_true] at ht
    exact ih _ (Sys.LeaseInv_step s a hl) (Sys.CountInv_step s a hl hc ht.1) ht.2

theorem Sys.run_jobs (acts : List Action) :
    ∀ s : Sys, (Sys.run acts s).workers.map Worker.job = s.workers.map Worker.job := by
  induction acts with
  | nil => intro s; rfl
  | cons a acts ih => intro s; rw [Sys.run, ih, Sys.step_jobs]

/-- The contributions of workers that have all completed depend on their jobs only. -/
theorem Worker.credit_sum_completed (job : Job) (l : List Worker)
    (h : ∀ w ∈ l, w.phase = Phase.finished true) :
    (l.map (Worker.credit job)).sum =
      ((l.map Worker.job).map (fun j => if j = job then job.increment else 0)).sum := by
  induction l with
  | nil => rfl
  | cons w ws ih =>
    have hw := h w (List.mem_cons_self w ws)
    have hws := ih (fun v hv => h v (List.mem_cons_of_mem w hv))
    simp only [List.map_cons, List.sum_cons, hws]
    simp [Worker.credit, hw]

/-- C8 (end-to-end scenario, as far as it holds): start as `main` does, with both lock keys
deleted, both counters at 0, three inventory workers and two order workers with pairwise
distinct identifiers.  Along every interleaving in which each counter write is made while
the writer's 10 s lease is still running, each counter equals the sum of the increments of
its workers that have written so far; so once all five workers have returned after running
their critical sections (none gave up on a store error or after 15 busy attempts) the values
are exactly `inventoryCount = 30` and `orderCount = 2`. -/
theorem final_counters_of_timely_run (s0 : Store) (u1 u2 u3 u4 u5 : String)
    (acts : List Action)
    (hnodup : [u1, u2, u3, u4, u5].Nodup)
    (htimely : Sys.timelyRun acts (mainStart s0 u1 u2 u3 u4 u5) = true) :
    (∀ job : Job, (Sys.run acts (mainStart s0 u1 u2 u3 u4 u5)).world.counter job =
      ((Sys.run acts (mainStart s0 u1 u2 u3 u4 u5)).workers.map (Worker.credit job)).sum) ∧
    ((Sys.run acts (mainStart s0 u1 u2 u3 u4 u5)).allCompleted →
      (Sys.run acts (mainStart s0 u1 u2 u3 u4 u5)).world.inventoryCount = 30 ∧
      (Sys.run acts (mainStart s0 u1 u2 u3 u4 u5)).world.orderCount = 2) := by
  have hl : (mainStart s0 u1 u2 u3 u4 u5).LeaseInv := by
    refine ⟨hnodup, ?_⟩
    intro k w since hk hs
    have hm : w ∈ (mainStart s0 u1 u2 u3 u4 u5).workers := List.getElem?_mem hk
    simp only [mainStart, List.mem_cons, List.mem_singleton, List.not_mem_nil, or_false] at hm
    rcases hm with h | h | h | h | h <;> simp [h, Worker.start, Worker.holdsSince] at hs
  have hc : (mainStart s0 u1 u2 u3 u4 u5).CountInv := by
    refine ⟨by simp [mainStart], ?_, ?_⟩
    · intro k w c wake since hk hp
      have hm : w ∈ (mainStart s0 u1 u2 u3 u4 u5).workers := List.getElem?_mem hk
      simp only [mainStart, List.mem_cons, List.mem_singleton, List.not_mem_nil, or_false] at hm
      rcases hm with h | h | h | h | h <;> simp [h, Worker.start] at hp
    · intro job
      cases job <;> simp [mainStart, World.counter, Worker.credit, Worker.start]
  have hfin := (Sys.invariants_run acts _ hl hc htimely).2.2
  refine ⟨hfin, ?_⟩
  intro hdone
  have hjobs := Sys.run_jobs acts (mainStart s0 u1 u2 u3 u4 u5)
  have h1 := hfin Job.inventory
  have h2 := hfin Job.orders
  rw [Worker.credit_sum_completed _ _ hdone, hjobs] at h1 h2
  simp only [World.counter] at h1 h2
  rw [h1, h2]
  simp [mainStart, Worker.start, Job.increment]

/-- C8 as claimed fails: from the system `main` starts, `faultActs` (one store fault on the
first `Acquire` of worker 0) and `lostUpdateActs` (no fault, the lease of worker 0 lapses
during its hold) both end with all five workers returned, `orderCount = 2` and
`inventoryCount = 20`, not 30. -/
theorem final_inventory_can_be_20 :
    ((Sys.run faultActs (mainStart (Store.empty 0) uuid1 uuid2 uuid3 uuid4 uuid5)).allFinished ∧
      (Sys.run faultActs
        (mainStart (Store.empty 0) uuid1 uuid2 uuid3 uuid4 uuid5)).world.inventoryCount = 20 ∧
      (Sys.run faultActs
        (mainStart (Store.empty 0) uuid1 uuid2 uuid3 uuid4 uuid5)).world.orderCount = 2) ∧
    ((Sys.run lostUpdateActs
        (mainStart (Store.empty 0) uuid1 uuid2 uuid3 uuid4 uuid5)).allCompleted ∧
      (Sys.run lostUpdateActs
        (mainStart (Store.empty 0) uuid1 uuid2 uuid3 uuid4 uuid5)).world.inventoryCount = 20 ∧
      (Sys.run lostUpdateActs
        (mainStart (Store.empty 0) uuid1 uuid2 uuid3 uuid4 uuid5)).world.orderCount = 2) :=
  ⟨⟨by unfold Sys.allFinished; decide, by decide, by decide⟩,
   ⟨by unfold Sys.allCompleted; decide, by decide, by decide⟩⟩

/-- C7 on `lapseActs`: workers 0 and 1 are both inside the critical section, and not both
leases are running (that of worker 0 has lapsed). -/
theorem mutual_exclusion_while_leases_run_witness :
    ¬ ((Worker.mk Job.inventory uuid1 (Phase.critical 0 2000000000 0)).inCritical = true ∧
       (Worker.mk Job.inventory uuid2
         (Phase.critical 0 12000000000 10000000000)).inCritical = true ∧
       (Worker.mk Job.inventory uuid1 (Phase.critical 0 2000000000 0)).leaseRunning
         (Sys.run lapseActs
           { world := (mainStart (Store.empty 0) uuid1 uuid2 uuid3 uuid4 uuid5).world
             workers := (mainStart (Store.empty 0) uuid1 uuid2 uuid3 uuid4 uuid5).workers }
           ).world.store.now = true ∧
       (Worker.mk Job.inventory uuid2
         (Phase.critical 0 12000000000 10000000000)).leaseRunning
         (Sys.run lapseActs
           { world := (mainStart (Store.empty 0) uuid1 uuid2 uuid3 uuid4 uuid5).world
             workers := (mainStart (Store.empty 0) uuid1 uuid2 uuid3 uuid4 uuid5).workers }
           ).world.store.now = true) :=
  mutual_exclusion_while_leases_run
    (mainStart (Store.empty 0) uuid1 uuid2 uuid3 uuid4 uuid5).world
    (mainStart (Store.empty 0) uuid1 uuid2 uuid3 uuid4 uuid5).workers lapseActs
    (by decide) (by decide) 0 1 _ _ (by decide) (by decide) (by decide) (by decide)

/-- C8 on `quietActs`: the five workers one after the other end with 30 and 2. -/
theorem final_counters_of_timely_run_witness :
    (Sys.run quietActs
      (mainStart (Store.empty 0) uuid1 uuid2 uuid3 uuid4 uuid5)).world.inventoryCount = 30 ∧
    (Sys.run quietActs
      (mainStart (Store.empty 0) uuid1 uuid2 uuid3 uuid4 uuid5)).world.orderCount = 2 :=
  (final_counters_of_timely_run (Store.empty 0) uuid1 uuid2 uuid3 uuid4 uuid5 quietActs
    (by decide) (by decide)).2 (by unfold Sys.allCompleted; decide)

end RedisLock
